import Mathlib

/-!
Verification development for the flowcheck per-flow traffic inspector.

The C++ core under `src/flow` is shallowly embedded below:
packets are `List Nat` byte lists, machine integers are `Nat` with explicit
truncation where it matters, stateful code is explicit state passing.
The DNS wire parser (`dns::DNSParser`) and the DNS response cache
(`dns::DNSResponseCache`) are not part of the inspected sources (only their
callers are); they are modelled from the specification, as are the libc
address-conversion routines `inet_pton` / `inet_ntop`.  Everything else is
translated from the source files `flow_defines.h`, `flow_defines.cpp`
(`FlowIP`, `FlowContext`), `flow_dns.cpp` (`DNSEngine`) and
`flow_engine.cpp` (`FlowEngine`, both the current and the earlier revision
of the orchestration).
-/

set_option maxRecDepth 8000

namespace Flowcheck

/-- The shared append-with-dedup loop used verbatim by both
`FlowContext::addDomains` (flow_defines.cpp) and
`DNSEngine::addIPDomainMappings` (flow_dns.cpp): walk the new strings,
skip empty ones, skip ones already present, append the rest in order. -/
def dedupAppend (acc : List String) (ds : List String) : List String :=
  ds.foldl (fun a d => if d = "" then a else if d ∈ a then a else a ++ [d]) acc

/-- The well-formedness invariant of a domain list: no duplicates and no
empty strings. -/
def DomainsOK (ds : List String) : Prop := ds.Nodup ∧ "" ∉ ds

instance (ds : List String) : Decidable (DomainsOK ds) := by
  unfold DomainsOK; infer_instance

/-! ### Textual IP addresses

Modelled from the spec: the reverse index stores IPv4 addresses in
dotted-quad textual form and IPv6 addresses in the canonical compressed
form without brackets; parsing of textual addresses follows the libc
`inet_pton` behaviour (the actual conversion routines are libc, external
to the inspected sources). -/

/-- Lower-case hexadecimal digit character. -/
def hexChar (n : Nat) : Char := if n < 10 then Char.ofNat (48 + n) else Char.ofNat (87 + n)

/-- A 16-bit group printed in lower-case hex without leading zeros. -/
def hex16 (n : Nat) : String :=
  if n < 16 then String.mk [hexChar n]
  else if n < 256 then String.mk [hexChar (n / 16), hexChar (n % 16)]
  else if n < 4096 then String.mk [hexChar (n / 256), hexChar (n / 16 % 16), hexChar (n % 16)]
  else String.mk [hexChar (n / 4096 % 16), hexChar (n / 256 % 16), hexChar (n / 16 % 16),
    hexChar (n % 16)]

def joinColon : List String → String
  | [] => ""
  | [s] => s
  | s :: rest => s ++ ":" ++ joinColon rest

/-- Length of the run of zero groups starting at index `i`. -/
def zeroRunAt (gs : List Nat) (i : Nat) : Nat :=
  ((gs.drop i).takeWhile (fun g => g = 0)).length

/-- Leftmost longest run of zero groups of length at least 2, if any
(the run that `inet_ntop` replaces by a double colon). -/
def bestRun (gs : List Nat) : Option (Nat × Nat) :=
  let cands := (List.range gs.length).map (fun i => (i, zeroRunAt gs i))
  let best := cands.foldl (fun b c => if b.2 < c.2 then c else b) (0, 0)
  if 2 ≤ best.2 then some best else none

/-- Modelled from the spec: canonical compressed textual form of an IPv6
address given as eight 16-bit groups (libc `inet_ntop(AF_INET6)`). -/
def ntopV6 (gs : List Nat) : String :=
  match bestRun gs with
  | none => joinColon (gs.map hex16)
  | some (i, l) =>
      joinColon ((gs.take i).map hex16) ++ "::" ++ joinColon ((gs.drop (i + l)).map hex16)

/-- Modelled from the spec: dotted-quad textual form of an IPv4 address
given as its four bytes (libc `inet_ntop(AF_INET)`). -/
def ntopV4 (a b c d : Nat) : String :=
  Nat.repr a ++ "." ++ Nat.repr b ++ "." ++ Nat.repr c ++ "." ++ Nat.repr d

/-- 16-bit groups of a list of bytes, big-endian within each group. -/
def groups2 : List Nat → List Nat
  | b0 :: b1 :: rest => (b0 * 256 + b1) :: groups2 rest
  | _ => []

/-- The eight 16-bit groups of an IPv6 address given as two 64-bit halves. -/
def groupsOfHiLo (hi lo : Nat) : List Nat :=
  [hi / 281474976710656 % 65536, hi / 4294967296 % 65536, hi / 65536 % 65536, hi % 65536,
   lo / 281474976710656 % 65536, lo / 4294967296 % 65536, lo / 65536 % 65536, lo % 65536]

/-- Split a character list on a separator character (the list-level
analogue of `String.splitOn` for a one-character separator). -/
def splitOnChar (sep : Char) : List Char → List (List Char)
  | [] => [[]]
  | c :: rest =>
    match splitOnChar sep rest with
    | [] => [[c]]
    | cur :: acc => if c = sep then [] :: cur :: acc else (c :: cur) :: acc

/-- Split a character list on the two-character separator `::`, scanning
left to right without overlap (the list-level analogue of
`String.splitOn` with separator `::`). -/
def splitCC : List Char → List (List Char)
  | [] => [[]]
  | ':' :: ':' :: rest => [] :: splitCC rest
  | c :: rest =>
    match splitCC rest with
    | [] => [[c]]
    | cur :: acc => (c :: cur) :: acc

/-- Modelled from the spec: one decimal octet of a dotted quad as accepted
by libc `inet_pton(AF_INET)` (1-3 digits, value at most 255, no leading
zero). -/
def decOctet? (cs : List Char) : Option Nat :=
  if cs ≠ [] ∧ cs.length ≤ 3 ∧ cs.all Char.isDigit ∧ (cs.length = 1 ∨ cs.head? ≠ some '0') then
    let v := cs.foldl (fun a c => a * 10 + (c.toNat - 48)) 0
    if v ≤ 255 then some v else none
  else none

/-- A dotted quad read from characters; yields the four bytes in wire
order. -/
def parseQuad (cs : List Char) : Option (Nat × Nat × Nat × Nat) :=
  match (splitOnChar '.' cs).mapM decOctet? with
  | some [a, b, c, d] => some (a, b, c, d)
  | _ => none

/-- Modelled from the spec: libc `inet_pton(AF_INET)`. -/
def ptonV4 (s : String) : Option (Nat × Nat × Nat × Nat) := parseQuad s.data

def hexDigitVal? (c : Char) : Option Nat :=
  if '0' ≤ c ∧ c ≤ '9' then some (c.toNat - 48)
  else if 'a' ≤ c ∧ c ≤ 'f' then some (c.toNat - 87)
  else if 'A' ≤ c ∧ c ≤ 'F' then some (c.toNat - 55)
  else none

/-- One hexadecimal 16-bit piece of a textual IPv6 address (1-4 digits). -/
def hexPiece? (cs : List Char) : Option Nat :=
  if cs ≠ [] ∧ cs.length ≤ 4 then
    (cs.mapM hexDigitVal?).map (fun ds => ds.foldl (fun a d => a * 16 + d) 0)
  else none

/-- Pieces of one side of a textual IPv6 address turned into 16-bit
groups; a dotted quad is allowed only as the final piece and contributes
two groups. -/
def piecesToGroups : List (List Char) → Option (List Nat)
  | [] => some []
  | [p] =>
      if p.contains '.' then
        (parseQuad p).map (fun q => [q.1 * 256 + q.2.1, q.2.2.1 * 256 + q.2.2.2])
      else (hexPiece? p).map (fun g => [g])
  | p :: rest =>
      if p.contains '.' then none
      else do
        let g ← hexPiece? p
        let gs ← piecesToGroups rest
        pure (g :: gs)

/-- The 128-bit value of eight groups as two big-endian 64-bit halves
(this matches the `memcpy` + `ntohll` extraction in `FlowIP::fromString`). -/
def groupsToHiLo (gs : List Nat) : Nat × Nat :=
  ((gs.take 4).foldl (fun a g => a * 65536 + g) 0,
   ((gs.drop 4).take 4).foldl (fun a g => a * 65536 + g) 0)

/-- Modelled from the spec: libc `inet_pton(AF_INET6)`: up to eight
16-bit hex groups separated by colons, at most one double colon standing
for a run of zero groups, optional embedded dotted quad at the end. -/
def ptonV6 (s : String) : Option (Nat × Nat) :=
  match splitCC s.data with
  | [whole] => do
      let gs ← piecesToGroups (splitOnChar ':' whole)
      if gs.length = 8 then pure (groupsToHiLo gs) else none
  | [l, r] =>
      if l.contains '.' then none
      else do
        let lg ← piecesToGroups (if l = [] then [] else splitOnChar ':' l)
        let rg ← piecesToGroups (if r = [] then [] else splitOnChar ':' r)
        if lg.length + rg.length ≤ 7 then
          pure (groupsToHiLo (lg ++ List.replicate (8 - lg.length - rg.length) 0 ++ rg))
        else none
  | _ => none

/-! ### FlowIP and FlowContext (flow_defines.h / flow_defines.cpp) -/

/-- `FlowIP` from flow_defines.h: a tagged value.  The C++ `uint32_t v4`
field is modelled as its four memory bytes, lowest address first; the
build target is little-endian, so a numeric store into the field puts the
least significant byte at `m0`, while `inet_pton` writes the wire-order
bytes directly. -/
inductive FlowIP where
  | unknown
  | v4 (m0 m1 m2 m3 : Nat)
  | v6 (hi lo : Nat)
deriving DecidableEq, Repr

/-- `FlowIP::fromIPv4`: stores the given u32 unchanged (argument given as
memory bytes). -/
def FlowIP.fromIPv4 (m0 m1 m2 m3 : Nat) : FlowIP := .v4 m0 m1 m2 m3

/-- `FlowIP::fromIPv6` (flow_defines.cpp): collapse an IPv4-mapped
address `::ffff:a.b.c.d` to the V4 branch.  The C++ assigns the numeric
`lo & 0xFFFFFFFF` to the u32 field, so on the little-endian target the
memory bytes are the little-endian bytes of that numeric. -/
def FlowIP.fromIPv6 (hi lo : Nat) : FlowIP :=
  if hi = 0 ∧ lo / 4294967296 = 65535 then
    .v4 (lo % 256) (lo / 256 % 256) (lo / 65536 % 256) (lo / 16777216 % 256)
  else .v6 hi lo

/-- `FlowIP::fromString` (flow_defines.cpp): try IPv4 first (network byte
order into the field), then IPv6 through `fromIPv6`, else Unknown. -/
def FlowIP.fromString (s : String) : FlowIP :=
  match ptonV4 s with
  | some (a, b, c, d) => .v4 a b c d
  | none =>
      match ptonV6 s with
      | some (hi, lo) => FlowIP.fromIPv6 hi lo
      | none => .unknown

def FlowIP.isUnknown : FlowIP → Bool
  | .unknown => true
  | _ => false

def FlowIP.isV4 : FlowIP → Bool
  | .v4 _ _ _ _ => true
  | _ => false

def FlowIP.isV6 : FlowIP → Bool
  | .v6 _ _ => true
  | _ => false

inductive FlowType where
  | TCP | UDP | DNS
deriving DecidableEq, Repr

inductive FlowDirection where
  | Outbound | Inbound
deriving DecidableEq, Repr

inductive FlowDecision where
  | Block | Allow
deriving DecidableEq, Repr

inductive PathType where
  | None | Direct | Local | Gateway
deriving DecidableEq, Repr

/-- `FlowContext` from flow_defines.h, with the C++ member defaults. -/
structure FlowContext where
  session_id : Nat := 0
  timestamp_ns : Nat := 0
  pid : Nat := 0
  proc_name : String := ""
  proc_path : String := ""
  flow_type : FlowType := .TCP
  direction : FlowDirection := .Outbound
  dst_ip : FlowIP := .unknown
  dst_port : Nat := 0
  domains : List String := []
  /-- memoized textual form of `dst_ip` (`mutable std::string dst_ip_str`) -/
  dst_ip_str : String := ""
  path_decision : PathType := .Local
  flow_decision : FlowDecision := .Allow
deriving DecidableEq, Repr

/-- `FlowContext::addDomains` (flow_defines.cpp): early return on an empty
argument, otherwise append each non-empty, not-yet-present string. -/
def FlowContext.addDomains (ctx : FlowContext) (new_domains : List String) : FlowContext :=
  if new_domains = [] then ctx
  else { ctx with domains := dedupAppend ctx.domains new_domains }

def FlowContext.hasDomain (ctx : FlowContext) : Bool := !ctx.domains.isEmpty

def FlowContext.isDNS (ctx : FlowContext) : Bool := ctx.dst_port == 53

/-- `FlowContext::getIPString` (flow_defines.cpp): memoized textual form,
IPv6 enclosed in brackets.  The memo write is observationally irrelevant
and is not modelled; the memo is consulted as in the source. -/
def FlowContext.getIPString (ctx : FlowContext) : String :=
  if ctx.dst_ip_str ≠ "" then ctx.dst_ip_str
  else
    match ctx.dst_ip with
    | .v4 m0 m1 m2 m3 => ntopV4 m0 m1 m2 m3
    | .v6 hi lo => "[" ++ ntopV6 (groupsOfHiLo hi lo) ++ "]"
    | .unknown => "[Unknown]"

/-- `FlowContext::getIPStringRaw` (flow_defines.cpp): the textual form
with the IPv6 brackets stripped. -/
def FlowContext.getIPStringRaw (ctx : FlowContext) : String :=
  let s := ctx.getIPString
  if s ≠ "" ∧ s.front = '[' ∧ s.back = ']' then (s.drop 1).dropRight 1 else s

/-! ### DNS wire format

Modelled from the spec: the decoder `dns::DNSParser` (dns_message.cpp) is
not among the inspected sources, only its callers in flow_dns.cpp are.
The model follows spec section 4.1: 12-byte big-endian header, compressed
names with the 255-octet bound, the label/pointer tag bits, the
pointer-cycle guard, exact-size typed rdata, and whole-parse failure on
any structural error. -/

structure DNSHeader where
  id : Nat
  flags : Nat
  qdcount : Nat
  ancount : Nat
  nscount : Nat
  arcount : Nat
deriving DecidableEq, Repr

structure DNSQuestion where
  name : String
  qtype : Nat
  qclass : Nat
deriving DecidableEq, Repr

structure DNSRecord where
  name : String
  rtype : Nat
  rclass : Nat
  ttl : Nat
  rdata : List Nat
  /-- decoded CNAME or PTR target name -/
  domain : Option String
  /-- decoded MX preference and exchange -/
  mx : Option (Nat × String)
  /-- decoded SRV priority, weight, port and target -/
  srv : Option (Nat × Nat × Nat × String)
deriving DecidableEq, Repr

structure DNSMessage where
  header : DNSHeader
  questions : List DNSQuestion
  answers : List DNSRecord
deriving DecidableEq, Repr

def readU16 (pkt : List Nat) (i : Nat) : Option Nat := do
  let a ← pkt[i]?
  let b ← pkt[i + 1]?
  pure (a * 256 + b)

def readU32 (pkt : List Nat) (i : Nat) : Option Nat := do
  let a ← readU16 pkt i
  let b ← readU16 pkt (i + 2)
  pure (a * 65536 + b)

/-- Compressed-name label walk: length-prefixed labels (top bits 00),
two-byte pointers (top bits 11) with a revisit guard, hard failure on a
label length tag 64-191 and on the 255-octet reassembled-name bound.
Returns the labels and the offset just past the name in the original
stream.  The fuel only bounds the recursion; it is large enough that the
cycle guard, not the fuel, is what stops every pointer loop. -/
def parseLabels (pkt : List Nat) : Nat → Nat → List Nat → Nat → Option (List String × Nat)
  | 0, _, _, _ => none
  | fuel + 1, off, visited, total => do
    let b ← pkt[off]?
    if b = 0 then pure ([], off + 1)
    else if b < 64 then
      if total + b + 1 ≤ 255 then
        let lab := (pkt.drop (off + 1)).take b
        if lab.length = b then do
          let rest ← parseLabels pkt fuel (off + 1 + b) visited (total + b + 1)
          pure (String.mk (lab.map Char.ofNat) :: rest.1, rest.2)
        else none
      else none
    else if 192 ≤ b then do
      let b2 ← pkt[off + 1]?
      let ptr := (b - 192) * 256 + b2
      if ptr ∈ visited then none
      else if ptr < pkt.length then do
        let rest ← parseLabels pkt fuel ptr (ptr :: visited) total
        pure (rest.1, off + 2)
      else none
    else none

def parseName (pkt : List Nat) (off : Nat) : Option (String × Nat) := do
  let r ← parseLabels pkt (2 * pkt.length + 300) off [] 0
  pure (String.intercalate "." r.1, r.2)

def parseQuestion (pkt : List Nat) (off : Nat) : Option (DNSQuestion × Nat) := do
  let n ← parseName pkt off
  let qtype ← readU16 pkt n.2
  let qclass ← readU16 pkt (n.2 + 2)
  pure (⟨n.1, qtype, qclass⟩, n.2 + 4)

def parseQuestions (pkt : List Nat) : Nat → Nat → Option (List DNSQuestion × Nat)
  | 0, off => some ([], off)
  | n + 1, off => do
    let q ← parseQuestion pkt off
    let qs ← parseQuestions pkt n q.2
    pure (q.1 :: qs.1, qs.2)

/-- One resource record: owner name, type, class, ttl, rdlength, rdata;
typed rdata is validated as in spec section 4.1 (A exactly 4 bytes, AAAA
exactly 16, CNAME/PTR a name consuming exactly rdlength, MX a 16-bit
preference plus a name, SRV three 16-bit integers plus a name; other
types keep the raw slice). -/
def parseRecord (pkt : List Nat) (off : Nat) : Option (DNSRecord × Nat) := do
  let n ← parseName pkt off
  let rtype ← readU16 pkt n.2
  let rclass ← readU16 pkt (n.2 + 2)
  let ttl ← readU32 pkt (n.2 + 4)
  let rdlen ← readU16 pkt (n.2 + 8)
  let rdStart := n.2 + 10
  let rdata := (pkt.drop rdStart).take rdlen
  if rdata.length ≠ rdlen then none
  else
    let fin := rdStart + rdlen
    if rtype = 1 then
      if rdlen = 4 then pure (⟨n.1, rtype, rclass, ttl, rdata, none, none, none⟩, fin) else none
    else if rtype = 28 then
      if rdlen = 16 then pure (⟨n.1, rtype, rclass, ttl, rdata, none, none, none⟩, fin) else none
    else if rtype = 5 ∨ rtype = 12 then do
      let t ← parseName pkt rdStart
      if t.2 = fin then pure (⟨n.1, rtype, rclass, ttl, rdata, some t.1, none, none⟩, fin)
      else none
    else if rtype = 15 then do
      let pref ← readU16 pkt rdStart
      let ex ← parseName pkt (rdStart + 2)
      if ex.2 = fin then
        pure (⟨n.1, rtype, rclass, ttl, rdata, none, some (pref, ex.1), none⟩, fin)
      else none
    else if rtype = 33 then do
      let prio ← readU16 pkt rdStart
      let weight ← readU16 pkt (rdStart + 2)
      let port ← readU16 pkt (rdStart + 4)
      let tgt ← parseName pkt (rdStart + 6)
      if tgt.2 = fin then
        pure (⟨n.1, rtype, rclass, ttl, rdata, none, none, some (prio, weight, port, tgt.1)⟩, fin)
      else none
    else pure (⟨n.1, rtype, rclass, ttl, rdata, none, none, none⟩, fin)

def parseRecords (pkt : List Nat) : Nat → Nat → Option (List DNSRecord × Nat)
  | 0, off => some ([], off)
  | n + 1, off => do
    let r ← parseRecord pkt off
    let rs ← parseRecords pkt n r.2
    pure (r.1 :: rs.1, rs.2)

/-- Modelled from the spec: the whole-message decoder of `dns::DNSParser`.
All four sections are walked; authority and additional records are
validated but not retained (only questions and answers are consumed by
the callers in flow_dns.cpp). -/
def parse (pkt : List Nat) : Option DNSMessage :=
  if pkt.length < 12 then none
  else do
    let id ← readU16 pkt 0
    let flags ← readU16 pkt 2
    let qd ← readU16 pkt 4
    let an ← readU16 pkt 6
    let ns ← readU16 pkt 8
    let ar ← readU16 pkt 10
    let qs ← parseQuestions pkt qd 12
    let ans ← parseRecords pkt an qs.2
    let auth ← parseRecords pkt ns ans.2
    let _ ← parseRecords pkt ar auth.2
    pure ⟨⟨id, flags, qd, an, ns, ar⟩, qs.1, ans.1⟩

/-- `DNSRecord::ipv4()`: the dotted-quad string of an A record's rdata. -/
def DNSRecord.ipv4 (r : DNSRecord) : Option String :=
  if r.rtype = 1 then
    match r.rdata with
    | [a, b, c, d] => some (ntopV4 a b c d)
    | _ => none
  else none

/-- `DNSRecord::ipv6()`: the canonical compressed string of an AAAA
record's rdata. -/
def DNSRecord.ipv6 (r : DNSRecord) : Option String :=
  if r.rtype = 28 ∧ r.rdata.length = 16 then some (ntopV6 (groups2 r.rdata)) else none

/-- QR bit: high bit of the flags word. -/
def DNSMessage.isResponse (msg : DNSMessage) : Bool := msg.header.flags / 32768 % 2 = 1

/-- TC bit of the flags word. -/
def DNSMessage.isTruncated (msg : DNSMessage) : Bool := msg.header.flags / 512 % 2 = 1

/-! ### DNS response cache

Modelled from the spec: `dns::DNSResponseCache` (dns_cache.cpp) is not
among the inspected sources.  The model follows spec section 4.2: a
bounded store keyed by the normalized first question, TTL-aware, with
LRU eviction on insert; lookups bypass expired entries; the hit path
produces a fresh byte image with the transaction id rewritten. -/

def lowerName (s : String) : String := String.mk (s.data.map Char.toLower)

structure QuestionKey where
  qname : String
  qtype : Nat
  qclass : Nat
deriving DecidableEq, Repr

/-- The normalized `(lowercased qname, qtype, qclass)` of the first
question, if any. -/
def DNSMessage.questionKey (msg : DNSMessage) : Option QuestionKey :=
  msg.questions.head?.map (fun q => ⟨lowerName q.name, q.qtype, q.qclass⟩)

structure CacheEntry where
  key : QuestionKey
  bytes : List Nat
  expiresAt : Nat
deriving DecidableEq, Repr

/-- Most recently inserted entry first. -/
abbrev DNSCache := List CacheEntry

def dnsCacheCapacity : Nat := 2048

def DNSMessage.hasIPAnswer (msg : DNSMessage) : Bool :=
  msg.answers.any (fun r => r.ipv4.isSome || r.ipv6.isSome)

def minTTL : List DNSRecord → Nat
  | [] => 0
  | r :: rest => rest.foldl (fun m x => min m x.ttl) r.ttl

/-- Modelled from the spec (section 4.2, Store): decode; skip queries,
truncated responses, responses without an A/AAAA answer, zero TTL and
responses without a question; otherwise insert under the normalized first
question with `expires_at = now + min_ttl_across_answers`, replacing any
entry with the same key, evicting the least recently inserted beyond
capacity. -/
def storeResponse (pkt : List Nat) (now : Nat) (cache : DNSCache) : DNSCache :=
  match parse pkt with
  | none => cache
  | some msg =>
      if ¬ msg.isResponse then cache
      else if msg.isTruncated then cache
      else if ¬ msg.hasIPAnswer then cache
      else if minTTL msg.answers = 0 then cache
      else
        match msg.questionKey with
        | none => cache
        | some k =>
            (⟨k, pkt, now + minTTL msg.answers⟩ :: cache.filter (fun e => e.key ≠ k)).take
              dnsCacheCapacity

/-- The cached bytes with the first two bytes (transaction id) replaced. -/
def rewriteTxid (bytes : List Nat) (b0 b1 : Nat) : List Nat := (bytes.set 0 b0).set 1 b1

/-- Modelled from the spec (section 4.2, Build response from cache):
decode the query, look up by the normalized first question bypassing
expired entries, and produce the cached response with the transaction id
rewritten to the query's. -/
def buildResponseFromCache (pkt : List Nat) (now : Nat) (cache : DNSCache) :
    Option (List Nat) := do
  let msg ← parse pkt
  let k ← msg.questionKey
  let e ← cache.find? (fun e => decide (e.key = k ∧ now < e.expiresAt))
  pure (rewriteTxid e.bytes (pkt.headD 0) ((pkt.drop 1).headD 0))

/-! ### DNSEngine (flow_dns.cpp) -/

/-- The mutable state of `DNSEngine`: the response cache and the
IP-to-domains reverse index (`std::unordered_map` modelled as an
association list without duplicate keys). -/
structure DNSEngineState where
  cache : DNSCache := []
  index : List (String × List String) := []
deriving DecidableEq, Repr

def indexFind? (idx : List (String × List String)) (ip : String) : Option (List String) :=
  (idx.find? (fun e => decide (e.1 = ip))).map Prod.snd

/-- Write an entry, replacing the existing one for the key or appending a
new one (the effect of mutating `ip_to_domains_[ip]`). -/
def indexSet (idx : List (String × List String)) (ip : String) (v : List String) :
    List (String × List String) :=
  match idx with
  | [] => [(ip, v)]
  | e :: rest => if e.1 = ip then (ip, v) :: rest else e :: indexSet rest ip v

namespace DNSEngine

/-- `DNSEngine::getDomainsForIP` (flow_dns.cpp). -/
def getDomainsForIP (st : DNSEngineState) (ip : String) : List String :=
  (indexFind? st.index ip).getD []

/-- `DNSEngine::addIPDomainMappings` (flow_dns.cpp): early return on an
empty domain list, otherwise merge into the (default-inserted) entry,
skipping empty and already-present domains. -/
def addIPDomainMappings (ip : String) (domains : List String)
    (idx : List (String × List String)) : List (String × List String) :=
  if domains = [] then idx
  else indexSet idx ip (dedupAppend ((indexFind? idx ip).getD []) domains)

/-- `DNSEngine::addIPsDomainsMappings` (flow_dns.cpp): map every
non-empty IP to all the domains. -/
def addIPsDomainsMappings (ips domains : List String)
    (idx : List (String × List String)) : List (String × List String) :=
  if ips = [] ∨ domains = [] then idx
  else ips.foldl (fun a ip => if ip ≠ "" then addIPDomainMappings ip domains a else a) idx

/-- `DNSEngine::handleQuery` (flow_dns.cpp): parse, add the non-empty
question names to the context, probe the cache.  The cache probe does not
change the engine state. -/
def handleQuery (ctx : FlowContext) (pkt : List Nat) (now : Nat) (st : DNSEngineState) :
    Option (List Nat) × FlowContext :=
  if pkt = [] then (none, ctx)
  else
    match parse pkt with
    | none => (none, ctx)
    | some msg =>
        let domains := msg.questions.filterMap fun q =>
          if q.name ≠ "" then some q.name else none
        (buildResponseFromCache pkt now st.cache, ctx.addDomains domains)

/-- The domain strings `DNSEngine::handleResponse` collects from a parsed
message: non-empty question names, then per answer the non-empty owner
name and the CNAME/PTR/MX/SRV target. -/
def collectNames (msg : DNSMessage) : List String :=
  (msg.questions.filterMap fun q => if q.name ≠ "" then some q.name else none)
    ++ msg.answers.flatMap fun r =>
      (if r.name ≠ "" then [r.name] else [])
        ++ (if r.rtype = 5 then r.domain.toList else [])
        ++ (if r.rtype = 12 then r.domain.toList else [])
        ++ (if r.rtype = 15 then (r.mx.map Prod.snd).toList else [])
        ++ (if r.rtype = 33 then (r.srv.map fun s => s.2.2.2).toList else [])

/-- The IP strings `DNSEngine::handleResponse` collects: every A answer's
dotted quad and every AAAA answer's canonical string. -/
def collectIPs (msg : DNSMessage) : List String :=
  msg.answers.flatMap fun r =>
    (if r.rtype = 1 then r.ipv4.toList else [])
      ++ (if r.rtype = 28 then r.ipv6.toList else [])

/-- `DNSEngine::handleResponse` (flow_dns.cpp): require 12 bytes, parse,
require the QR bit; add the collected names to the context, map all
collected IPs to all collected names, and store the raw response when an
A/AAAA answer was present. -/
def handleResponse (ctx : FlowContext) (pkt : List Nat) (now : Nat) (st : DNSEngineState) :
    FlowContext × DNSEngineState :=
  if pkt = [] then (ctx, st)
  else if pkt.length < 12 then (ctx, st)
  else
    match parse pkt with
    | none => (ctx, st)
    | some msg =>
        if ¬ msg.isResponse then (ctx, st)
        else
          let domains := collectNames msg
          let ips := collectIPs msg
          ( ctx.addDomains domains,
            { cache := if ips ≠ [] then storeResponse pkt now st.cache else st.cache,
              index :=
                if ips ≠ [] ∧ domains ≠ [] then addIPsDomainsMappings ips domains st.index
                else st.index } )

/-- `DNSEngine::clearCache` (flow_dns.cpp). -/
def clearCache (_st : DNSEngineState) : DNSEngineState := {}

end DNSEngine

/-! ### FlowEngine (flow_engine.cpp, current revision)

`Detector::extractDomain` dispatches to the HTTP/TLS packet parsers,
which live outside the inspected sources; the engine is therefore
parametrized by the detector function, and every theorem below holds for
an arbitrary detector. -/

/-- The type of `Detector::extractDomain` as seen by the engine. -/
abbrev Detector := FlowContext → List Nat → Option String

namespace FlowEngine

/-- `FlowEngine::tryResolveDomain(ctx)` (flow_engine.cpp): domain
completion from the reverse index only, guarded on a V4 destination. -/
def tryResolveDomain (st : DNSEngineState) (ctx : FlowContext) : Bool × FlowContext :=
  if ctx.hasDomain then (false, ctx)
  else
    match ctx.dst_ip with
    | .v4 _ _ _ _ =>
        let cached_domains := DNSEngine.getDomainsForIP st ctx.getIPStringRaw
        if cached_domains ≠ [] then (true, ctx.addDomains cached_domains) else (false, ctx)
    | _ => (false, ctx)

/-- `FlowEngine::tryResolveDomain(ctx, pkt)` (flow_engine.cpp): the
reverse index first, then the protocol detector. -/
def tryResolveDomainPkt (det : Detector) (st : DNSEngineState) (ctx : FlowContext)
    (pkt : List Nat) : Bool × FlowContext :=
  if ctx.hasDomain then (false, ctx)
  else
    match tryResolveDomain st ctx with
    | (true, ctx1) => (true, ctx1)
    | (false, _) =>
        match det ctx pkt with
        | some d => (true, ctx.addDomains [d])
        | none => (false, ctx)

/-- `FlowEngine::reevaluateDecision` (flow_engine.cpp): every branch sets
Allow and Local in this revision. -/
def reevaluateDecision (ctx : FlowContext) : FlowContext :=
  if ctx.isDNS then { ctx with flow_decision := .Allow, path_decision := .Local }
  else if ctx.hasDomain then { ctx with flow_decision := .Allow, path_decision := .Local }
  else { ctx with flow_decision := .Allow, path_decision := .Local }

/-- `FlowEngine::flowArrive` (flow_engine.cpp, current revision). -/
def flowArrive (st : DNSEngineState) (ctx : FlowContext) : FlowContext :=
  reevaluateDecision (tryResolveDomain st ctx).2

/-- `FlowEngine::flowOpen` (flow_engine.cpp): no observable effect. -/
def flowOpen (ctx : FlowContext) : FlowContext := ctx

/-- `FlowEngine::flowSend(ctx, pkt)` (flow_engine.cpp). -/
def flowSend (det : Detector) (st : DNSEngineState) (ctx : FlowContext) (pkt : List Nat)
    (now : Nat) : FlowContext × DNSEngineState :=
  if pkt = [] then (ctx, st)
  else if ctx.isDNS then ((DNSEngine.handleQuery ctx pkt now st).2, st)
  else
    match tryResolveDomainPkt det st ctx pkt with
    | (true, ctx1) => (reevaluateDecision ctx1, st)
    | (false, ctx1) => (ctx1, st)

/-- `FlowEngine::flowSend(ctx, pkt, response)` (flow_engine.cpp): the
overload that can return a cached DNS response. -/
def flowSendResp (det : Detector) (st : DNSEngineState) (ctx : FlowContext) (pkt : List Nat)
    (now : Nat) : Option (List Nat) × FlowContext × DNSEngineState :=
  if pkt = [] then (none, ctx, st)
  else if ctx.isDNS then
    let r := DNSEngine.handleQuery ctx pkt now st
    (r.1, r.2, st)
  else
    match tryResolveDomainPkt det st ctx pkt with
    | (true, ctx1) => (none, reevaluateDecision ctx1, st)
    | (false, ctx1) => (none, ctx1, st)

/-- `FlowEngine::flowRecv` (flow_engine.cpp, current revision). -/
def flowRecv (det : Detector) (st : DNSEngineState) (ctx : FlowContext) (pkt : List Nat)
    (now : Nat) : FlowContext × DNSEngineState :=
  if pkt = [] then (ctx, st)
  else if ctx.isDNS then DNSEngine.handleResponse ctx pkt now st
  else
    match tryResolveDomainPkt det st ctx pkt with
    | (true, ctx1) => ((reevaluateDecision ctx1, st) : FlowContext × DNSEngineState)
    | (false, ctx1) => (ctx1, st)

/-- `FlowEngine::flowClose` (flow_engine.cpp): no effect. -/
def flowClose (ctx : FlowContext) : FlowContext := ctx

/-! The earlier revision of the engine, concatenated after the current
one in the source file: `flowArrive` sets the decision without consulting
the reverse index, and `flowRecv` goes straight to the detector. -/

/-- `FlowEngine::flowArrive`, earlier revision. -/
def flowArriveOld (ctx : FlowContext) : FlowContext :=
  if ctx.isDNS then { ctx with flow_decision := .Allow, path_decision := .Local }
  else if ctx.hasDomain then { ctx with flow_decision := .Allow, path_decision := .Local }
  else { ctx with flow_decision := .Allow, path_decision := .Local }

/-- `FlowEngine::flowRecv`, earlier revision: on non-DNS traffic only the
detector is consulted, and success re-runs the old `flowArrive`. -/
def flowRecvOld (det : Detector) (st : DNSEngineState) (ctx : FlowContext) (pkt : List Nat)
    (now : Nat) : FlowContext × DNSEngineState :=
  if pkt = [] then (ctx, st)
  else if ctx.isDNS then DNSEngine.handleResponse ctx pkt now st
  else if ¬ ctx.hasDomain then
    match det ctx pkt with
    | some d => (flowArriveOld (ctx.addDomains [d]), st)
    | none => (ctx, st)
  else (ctx, st)

end FlowEngine

/-! ### Engine operation sequences -/

/-- One host-visible engine call on a single flow context, with the time
the DNS sub-engine would read for that call. -/
inductive FlowOp where
  | arrive
  | openFlow
  | send (pkt : List Nat) (now : Nat)
  | sendResp (pkt : List Nat) (now : Nat)
  | recv (pkt : List Nat) (now : Nat)
  | close
  | dnsQuery (pkt : List Nat) (now : Nat)
  | dnsResponse (pkt : List Nat) (now : Nat)
deriving DecidableEq, Repr

def applyOp (det : Detector) (p : FlowContext × DNSEngineState) (op : FlowOp) :
    FlowContext × DNSEngineState :=
  match op with
  | .arrive => (FlowEngine.flowArrive p.2 p.1, p.2)
  | .openFlow => (FlowEngine.flowOpen p.1, p.2)
  | .send pkt now => FlowEngine.flowSend det p.2 p.1 pkt now
  | .sendResp pkt now => (FlowEngine.flowSendResp det p.2 p.1 pkt now).2
  | .recv pkt now => FlowEngine.flowRecv det p.2 p.1 pkt now
  | .close => (FlowEngine.flowClose p.1, p.2)
  | .dnsQuery pkt now => ((DNSEngine.handleQuery p.1 pkt now p.2).2, p.2)
  | .dnsResponse pkt now => DNSEngine.handleResponse p.1 pkt now p.2

def runOps (det : Detector) (p : FlowContext × DNSEngineState) (ops : List FlowOp) :
    FlowContext × DNSEngineState :=
  ops.foldl (applyOp det) p

/-! ### Statement-side definitions -/

/-- Equality of two flow contexts on every field except `domains`. -/
def EqExceptDomains (a b : FlowContext) : Prop :=
  a.session_id = b.session_id ∧ a.timestamp_ns = b.timestamp_ns ∧ a.pid = b.pid ∧
  a.proc_name = b.proc_name ∧ a.proc_path = b.proc_path ∧ a.flow_type = b.flow_type ∧
  a.direction = b.direction ∧ a.dst_ip = b.dst_ip ∧ a.dst_port = b.dst_port ∧
  a.dst_ip_str = b.dst_ip_str ∧ a.path_decision = b.path_decision ∧
  a.flow_decision = b.flow_decision

instance (a b : FlowContext) : Decidable (EqExceptDomains a b) := by
  unfold EqExceptDomains; infer_instance

/-- The name set spoken of by the index-completeness property: the union
of the question names, the answer owner names, and the CNAME/PTR/MX/SRV
targets of a message. -/
def DNSMessage.unionNames (msg : DNSMessage) : List String :=
  msg.questions.map DNSQuestion.name ++ msg.answers.map DNSRecord.name
    ++ msg.answers.flatMap fun r =>
      (if r.rtype = 5 ∨ r.rtype = 12 then r.domain.toList else [])
        ++ (if r.rtype = 15 then (r.mx.map Prod.snd).toList else [])
        ++ (if r.rtype = 33 then (r.srv.map fun s => s.2.2.2).toList else [])

/-- The normalized key of a packet's first question. -/
def packetQuestionKey (pkt : List Nat) : Option QuestionKey :=
  (parse pkt).bind DNSMessage.questionKey

/-- Every cache entry's bytes satisfy `P` and carry the entry's key as
the key of their own first question. -/
def CacheOrigin (P : List Nat → Prop) (c : DNSCache) : Prop :=
  ∀ e ∈ c, P e.bytes ∧ packetQuestionKey e.bytes = some e.key

/-- Shorthand for the index lookup employed in the statements below. -/
def lookupD (idx : List (String × List String)) (ip : String) : List String :=
  (indexFind? idx ip).getD []

/-! ### Concrete packets and contexts for witnesses and counterexamples -/

/-- A DNS response for `example.com A`, id `0x1234`, one A answer
`93.184.216.34` with TTL 300 (the spec's scenario 1 response). -/
def exR1 : List Nat :=
  [18, 52, 129, 128, 0, 1, 0, 1, 0, 0, 0, 0,
   7, 101, 120, 97, 109, 112, 108, 101, 3, 99, 111, 109, 0, 0, 1, 0, 1,
   192, 12, 0, 1, 0, 1, 0, 0, 1, 44, 0, 4, 93, 184, 216, 34]

/-- A DNS query for `example.com A`, id `0xABCD`. -/
def exQ : List Nat :=
  [171, 205, 1, 0, 0, 1, 0, 0, 0, 0, 0, 0,
   7, 101, 120, 97, 109, 112, 108, 101, 3, 99, 111, 109, 0, 0, 1, 0, 1]

/-- A DNS response with one AAAA answer `2001:db8::1` for `example.com`. -/
def exAAAA : List Nat :=
  [0, 1, 129, 128, 0, 1, 0, 1, 0, 0, 0, 0,
   7, 101, 120, 97, 109, 112, 108, 101, 3, 99, 111, 109, 0, 0, 28, 0, 1,
   192, 12, 0, 28, 0, 1, 0, 0, 1, 44, 0, 16,
   32, 1, 13, 184, 0, 0, 0, 0, 0, 0, 0, 0, 0, 0, 0, 1]

/-- A DNS response whose question is the root name (empty string) and
whose single A answer is owned by `example.com`. -/
def exRoot : List Nat :=
  [0, 1, 129, 128, 0, 1, 0, 1, 0, 0, 0, 0,
   0, 0, 1, 0, 1,
   7, 101, 120, 97, 109, 112, 108, 101, 3, 99, 111, 109, 0,
   0, 1, 0, 1, 0, 0, 1, 44, 0, 4, 1, 2, 3, 4]

/-- The decoded form of `exRoot`. -/
def exRootMsg : DNSMessage :=
  ⟨⟨1, 33152, 1, 1, 0, 0⟩, [⟨"", 1, 1⟩],
   [⟨"example.com", 1, 1, 300, [1, 2, 3, 4], none, none, none⟩]⟩

/-- The decoded form of `exR1`. -/
def exR1Msg : DNSMessage :=
  ⟨⟨4660, 33152, 1, 1, 0, 0⟩, [⟨"example.com", 1, 1⟩],
   [⟨"example.com", 1, 1, 300, [93, 184, 216, 34], none, none, none⟩]⟩

/-- 200 bytes that are not a DNS message. -/
def junk200 : List Nat := List.replicate 200 7

/-- A detector that never finds a domain (one admissible instantiation of
the external packet parsers). -/
def det0 : Detector := fun _ _ => none

/-- A fresh TCP context towards `93.184.216.34:443`. -/
def ctxV4 : FlowContext := { dst_ip := .v4 93 184 216 34, dst_port := 443 }

/-- A fresh TCP context towards `[2001:db8::1]:443`. -/
def ctxV6 : FlowContext := { dst_ip := .v6 2306139568115548160 1, dst_port := 443 }

/-- The engine state after ingesting `exR1` into a fresh engine. -/
def stR1 : DNSEngineState := (DNSEngine.handleResponse {} exR1 0 {}).2

/-- The engine state after ingesting `exAAAA` into a fresh engine. -/
def stAAAA : DNSEngineState := (DNSEngine.handleResponse {} exAAAA 0 {}).2

/-! ## Basic lemmas -/

theorem dedupAppend_extends (acc ds : List String) :
    acc <+: dedupAppend acc ds := by
  induction ds generalizing acc with
  | nil => exact List.prefix_refl _
  | cons d ds ih =>
    simp only [dedupAppend, List.foldl_cons]
    by_cases h1 : d = ""
    · simpa [h1] using ih acc
    · by_cases h2 : d ∈ acc
      · simpa [h1, h2] using ih acc
      · simp only [h1, h2, if_false, if_true, ite_false]
        exact List.IsPrefix.trans (List.prefix_append acc [d]) (ih (acc ++ [d]))

theorem mem_of_mem_dedupAppend_acc {x : String} (acc ds : List String)
    (h : x ∈ acc) : x ∈ dedupAppend acc ds :=
  (dedupAppend_extends acc ds).subset h

theorem mem_dedupAppend_of_mem {x : String} (acc ds : List String)
    (hx : x ∈ ds) (hne : x ≠ "") : x ∈ dedupAppend acc ds := by
  induction ds generalizing acc with
  | nil => cases hx
  | cons d ds ih =>
    simp only [dedupAppend, List.foldl_cons]
    rcases List.mem_cons.1 hx with rfl | hmem
    · by_cases h2 : x ∈ acc
      · simp only [hne, if_false, h2, if_true, ite_false]
        exact mem_of_mem_dedupAppend_acc _ _ h2
      · simp only [hne, h2, if_false, ite_false]
        exact mem_of_mem_dedupAppend_acc _ _ (by simp)
    · by_cases h1 : d = ""
      · simpa [h1] using ih acc hmem
      · by_cases h2 : d ∈ acc
        · simpa [h1, h2] using ih acc hmem
        · simp only [h1, h2, if_false, ite_false]
          exact ih _ hmem

theorem dedupAppend_ok {acc ds : List String} (h : DomainsOK acc) :
    DomainsOK (dedupAppend acc ds) := by
  induction ds generalizing acc with
  | nil => exact h
  | cons d ds ih =>
    simp only [dedupAppend, List.foldl_cons]
    by_cases h1 : d = ""
    · simpa [h1] using ih h
    · by_cases h2 : d ∈ acc
      · simpa [h1, h2] using ih h
      · simp only [h1, h2, if_false, ite_false]
        refine ih ⟨?_, ?_⟩
        · simpa [List.nodup_append] using ⟨h.1, h2⟩
        · intro hmem
          rcases List.mem_append.1 hmem with hmem | hmem
          · exact h.2 hmem
          · simp at hmem; exact h1 hmem.symm

theorem dedupAppend_eq_self {acc ds : List String}
    (h : ∀ d ∈ ds, d = "" ∨ d ∈ acc) : dedupAppend acc ds = acc := by
  induction ds generalizing acc with
  | nil => rfl
  | cons d ds ih =>
    simp only [dedupAppend, List.foldl_cons]
    rcases h d (by simp) with h1 | h2
    · simp only [h1, if_true, ite_true]
      exact ih fun x hx => h x (by simp [hx])
    · have h1 : (if d = "" then acc else if d ∈ acc then acc else acc ++ [d]) = acc := by
        by_cases hd : d = "" <;> simp [hd, h2]
      rw [h1]
      exact ih fun x hx => h x (by simp [hx])

theorem addDomains_domains (ctx : FlowContext) (ds : List String) :
    (ctx.addDomains ds).domains = dedupAppend ctx.domains ds := by
  unfold FlowContext.addDomains
  split
  · next h => subst h; rfl
  · rfl

theorem eqExceptDomains_refl (a : FlowContext) : EqExceptDomains a a := by
  unfold EqExceptDomains; and_intros <;> rfl

theorem hasDomain_iff (ctx : FlowContext) : ctx.hasDomain = true ↔ ctx.domains ≠ [] := by
  unfold FlowContext.hasDomain
  cases ctx.domains <;> simp

theorem addDomains_eqExcept (ctx : FlowContext) (ds : List String) :
    EqExceptDomains (ctx.addDomains ds) ctx := by
  unfold FlowContext.addDomains
  split
  · exact eqExceptDomains_refl ctx
  · unfold EqExceptDomains; and_intros <;> rfl

theorem reevaluateDecision_eq (ctx : FlowContext) :
    FlowEngine.reevaluateDecision ctx
      = { ctx with flow_decision := .Allow, path_decision := .Local } := by
  unfold FlowEngine.reevaluateDecision
  split_ifs <;> rfl

theorem handleQuery_ctx (ctx : FlowContext) (pkt : List Nat) (now : Nat)
    (st : DNSEngineState) :
    ∃ ds, (DNSEngine.handleQuery ctx pkt now st).2 = ctx.addDomains ds := by
  unfold DNSEngine.handleQuery
  split
  · exact ⟨[], rfl⟩
  · split
    · exact ⟨[], rfl⟩
    · exact ⟨_, rfl⟩

theorem handleResponse_ctx (ctx : FlowContext) (pkt : List Nat) (now : Nat)
    (st : DNSEngineState) :
    ∃ ds, (DNSEngine.handleResponse ctx pkt now st).1 = ctx.addDomains ds := by
  unfold DNSEngine.handleResponse
  split
  · exact ⟨[], rfl⟩
  · split
    · exact ⟨[], rfl⟩
    · split
      · exact ⟨[], rfl⟩
      · split
        · exact ⟨[], rfl⟩
        · exact ⟨_, rfl⟩

/-! ## C4 -/

/-- C4: `reevaluateDecision` sets `flow_decision = Allow` and
`path_decision = Local` for every context, changes nothing else, gives
identical decisions to any two contexts (in particular to contexts with
identical transport tuple and identical domains), and is idempotent. -/
theorem C4_reevaluateDecision_allow_local (ctx a b : FlowContext) :
    (FlowEngine.reevaluateDecision ctx).flow_decision = .Allow ∧
    (FlowEngine.reevaluateDecision ctx).path_decision = .Local ∧
    FlowEngine.reevaluateDecision ctx
      = { ctx with flow_decision := .Allow, path_decision := .Local } ∧
    FlowEngine.reevaluateDecision (FlowEngine.reevaluateDecision ctx)
      = FlowEngine.reevaluateDecision ctx ∧
    (FlowEngine.reevaluateDecision a).flow_decision
      = (FlowEngine.reevaluateDecision b).flow_decision ∧
    (FlowEngine.reevaluateDecision a).path_decision
      = (FlowEngine.reevaluateDecision b).path_decision := by
  simp [reevaluateDecision_eq]

/-! ## C10 -/

/-- C10: `handleQuery` and `handleResponse` modify no context field other
than `domains` (session id, timestamp, process info, transport tuple,
memoized IP string and both decisions are returned unchanged), whether or
not the packet parses. -/
theorem C10_dns_ops_frame (ctx : FlowContext) (pkt : List Nat) (now : Nat)
    (st : DNSEngineState) :
    EqExceptDomains (DNSEngine.handleQuery ctx pkt now st).2 ctx ∧
    EqExceptDomains (DNSEngine.handleResponse ctx pkt now st).1 ctx := by
  constructor
  · obtain ⟨ds, h⟩ := handleQuery_ctx ctx pkt now st
    rw [h]; exact addDomains_eqExcept ctx ds
  · obtain ⟨ds, h⟩ := handleResponse_ctx ctx pkt now st
    rw [h]; exact addDomains_eqExcept ctx ds

/-! ## C5 -/

/-- C5: an input that fails DNS decoding produces no mutation at all:
`handleQuery` reports a miss and returns the context, cache and index
unchanged, and `handleResponse` returns the context, cache and index
unchanged (both are total functions, so neither can throw or abort). -/
theorem C5_malformed_no_mutation (ctx : FlowContext) (pkt : List Nat) (now : Nat)
    (st : DNSEngineState) (h : parse pkt = none) :
    DNSEngine.handleQuery ctx pkt now st = (none, ctx) ∧
    DNSEngine.handleResponse ctx pkt now st = (ctx, st) := by
  constructor
  · unfold DNSEngine.handleQuery
    split
    · rfl
    · rw [h]
  · unfold DNSEngine.handleResponse
    split
    · rfl
    · split
      · rfl
      · rw [h]

/-- Witness for C5: 200 bytes of junk fail to decode and mutate nothing. -/
theorem C5_witness :
    parse junk200 = none ∧
    (DNSEngine.handleQuery ctxV4 junk200 0 {} = (none, ctxV4) ∧
      DNSEngine.handleResponse ctxV4 junk200 0 {} = (ctxV4, {})) :=
  ⟨by decide, C5_malformed_no_mutation ctxV4 junk200 0 {} (by decide)⟩

/-! ## C6 -/

theorem reevaluate_domains (c : FlowContext) :
    (FlowEngine.reevaluateDecision c).domains = c.domains := by
  rw [reevaluateDecision_eq]

theorem tryResolveDomain_domains (st : DNSEngineState) (ctx : FlowContext) :
    ∃ ds, (FlowEngine.tryResolveDomain st ctx).2.domains = dedupAppend ctx.domains ds := by
  unfold FlowEngine.tryResolveDomain
  split
  · exact ⟨[], rfl⟩
  · split
    · dsimp only
      split
      · exact ⟨_, addDomains_domains ctx _⟩
      · exact ⟨[], rfl⟩
    · exact ⟨[], rfl⟩

theorem tryResolveDomainPkt_domains (det : Detector) (st : DNSEngineState)
    (ctx : FlowContext) (pkt : List Nat) :
    ∃ ds, (FlowEngine.tryResolveDomainPkt det st ctx pkt).2.domains
      = dedupAppend ctx.domains ds := by
  unfold FlowEngine.tryResolveDomainPkt
  split
  · exact ⟨[], rfl⟩
  · split
    · next ctx1 heq =>
      obtain ⟨ds, hds⟩ := tryResolveDomain_domains st ctx
      rw [heq] at hds
      exact ⟨ds, hds⟩
    · split
      · exact ⟨_, addDomains_domains ctx _⟩
      · exact ⟨[], rfl⟩

theorem applyOp_domains (det : Detector) (p : FlowContext × DNSEngineState) (op : FlowOp) :
    ∃ ds, (applyOp det p op).1.domains = dedupAppend p.1.domains ds := by
  cases op with
  | arrive =>
    obtain ⟨ds, hds⟩ := tryResolveDomain_domains p.2 p.1
    exact ⟨ds, by simpa [applyOp, FlowEngine.flowArrive, reevaluate_domains] using hds⟩
  | openFlow => exact ⟨[], rfl⟩
  | send pkt now =>
    show ∃ ds, (FlowEngine.flowSend det p.2 p.1 pkt now).1.domains = _
    unfold FlowEngine.flowSend
    split
    · exact ⟨[], rfl⟩
    · split
      · obtain ⟨ds, hds⟩ := handleQuery_ctx p.1 pkt now p.2
        exact ⟨ds, by simp [hds, addDomains_domains]⟩
      · split
        · next ctx1 heq =>
          obtain ⟨ds, hds⟩ := tryResolveDomainPkt_domains det p.2 p.1 pkt
          rw [heq] at hds
          exact ⟨ds, by simpa [reevaluate_domains] using hds⟩
        · next ctx1 heq =>
          obtain ⟨ds, hds⟩ := tryResolveDomainPkt_domains det p.2 p.1 pkt
          rw [heq] at hds
          exact ⟨ds, hds⟩
  | sendResp pkt now =>
    show ∃ ds, (FlowEngine.flowSendResp det p.2 p.1 pkt now).2.1.domains = _
    unfold FlowEngine.flowSendResp
    split
    · exact ⟨[], rfl⟩
    · split
      · obtain ⟨ds, hds⟩ := handleQuery_ctx p.1 pkt now p.2
        exact ⟨ds, by simp [hds, addDomains_domains]⟩
      · split
        · next ctx1 heq =>
          obtain ⟨ds, hds⟩ := tryResolveDomainPkt_domains det p.2 p.1 pkt
          rw [heq] at hds
          exact ⟨ds, by simpa [reevaluate_domains] using hds⟩
        · next ctx1 heq =>
          obtain ⟨ds, hds⟩ := tryResolveDomainPkt_domains det p.2 p.1 pkt
          rw [heq] at hds
          exact ⟨ds, hds⟩
  | recv pkt now =>
    show ∃ ds, (FlowEngine.flowRecv det p.2 p.1 pkt now).1.domains = _
    unfold FlowEngine.flowRecv
    split
    · exact ⟨[], rfl⟩
    · split
      · obtain ⟨ds, hds⟩ := handleResponse_ctx p.1 pkt now p.2
        exact ⟨ds, by simp [hds, addDomains_domains]⟩
      · split
        · next ctx1 heq =>
          obtain ⟨ds, hds⟩ := tryResolveDomainPkt_domains det p.2 p.1 pkt
          rw [heq] at hds
          exact ⟨ds, by simpa [reevaluate_domains] using hds⟩
        · next ctx1 heq =>
          obtain ⟨ds, hds⟩ := tryResolveDomainPkt_domains det p.2 p.1 pkt
          rw [heq] at hds
          exact ⟨ds, hds⟩
  | close => exact ⟨[], rfl⟩
  | dnsQuery pkt now =>
    obtain ⟨ds, hds⟩ := handleQuery_ctx p.1 pkt now p.2
    exact ⟨ds, by simp [applyOp, hds, addDomains_domains]⟩
  | dnsResponse pkt now =>
    obtain ⟨ds, hds⟩ := handleResponse_ctx p.1 pkt now p.2
    exact ⟨ds, by simp [applyOp, hds, addDomains_domains]⟩

theorem runOps_domains_ok (det : Detector) :
    ∀ (ops : List FlowOp) (p : FlowContext × DNSEngineState),
      DomainsOK p.1.domains →
      DomainsOK (runOps det p ops).1.domains ∧
        p.1.domains <+: (runOps det p ops).1.domains := by
  intro ops
  induction ops with
  | nil => exact fun p h => ⟨h, List.prefix_refl _⟩
  | cons op rest ih =>
    intro p h
    obtain ⟨ds, hds⟩ := applyOp_domains det p op
    have h1 : DomainsOK (applyOp det p op).1.domains := by
      rw [hds]; exact dedupAppend_ok h
    have h2 := ih (applyOp det p op) h1
    refine ⟨h2.1, List.IsPrefix.trans ?_ h2.2⟩
    rw [hds]; exact dedupAppend_extends _ _

/-- C6: for every context with a well-formed domain list and every
sequence of engine operations (`flowArrive`, `flowOpen`, both `flowSend`
forms, `flowRecv`, `flowClose`, `handleQuery`, `handleResponse`), the
resulting domain list has no duplicates and no empty strings, and the
starting list is a prefix of it (so it never shrinks), for an arbitrary
protocol detector. -/
theorem C6_domains_invariant (det : Detector) (ops : List FlowOp) (ctx : FlowContext)
    (st : DNSEngineState) (h : DomainsOK ctx.domains) :
    DomainsOK (runOps det (ctx, st) ops).1.domains ∧
      ctx.domains <+: (runOps det (ctx, st) ops).1.domains :=
  runOps_domains_ok det ops (ctx, st) h

/-- Witness for C6: a concrete operation sequence on a fresh context. -/
theorem C6_witness :
    DomainsOK ({} : FlowContext).domains ∧
    (DomainsOK (runOps det0 ({}, {})
        [FlowOp.arrive, FlowOp.dnsResponse exR1 5, FlowOp.recv [1, 2, 3] 6,
          FlowOp.close]).1.domains ∧
      ({} : FlowContext).domains <+: (runOps det0 ({}, {})
        [FlowOp.arrive, FlowOp.dnsResponse exR1 5, FlowOp.recv [1, 2, 3] 6,
          FlowOp.close]).1.domains) :=
  ⟨by decide,
    C6_domains_invariant det0
      [FlowOp.arrive, FlowOp.dnsResponse exR1 5, FlowOp.recv [1, 2, 3] 6, FlowOp.close]
      {} {} (by decide)⟩

/-! ## Reverse-index lemmas -/

theorem indexFind_cons_eq {e : String × List String} {rest : List (String × List String)}
    {ip : String} (h : e.1 = ip) : indexFind? (e :: rest) ip = some e.2 := by
  simp [indexFind?, List.find?_cons_of_pos, h]

theorem indexFind_cons_ne {e : String × List String} {rest : List (String × List String)}
    {ip : String} (h : e.1 ≠ ip) : indexFind? (e :: rest) ip = indexFind? rest ip := by
  simp only [indexFind?]
  rw [List.find?_cons_of_neg]
  simpa using h

theorem indexFind_indexSet_self (idx : List (String × List String)) (ip : String)
    (v : List String) : indexFind? (indexSet idx ip v) ip = some v := by
  induction idx with
  | nil => simp [indexSet, indexFind?]
  | cons e rest ih =>
    unfold indexSet
    by_cases h : e.1 = ip
    · rw [if_pos h]; exact indexFind_cons_eq rfl
    · rw [if_neg h, indexFind_cons_ne h]; exact ih

theorem indexFind_indexSet_ne {ip' ip : String} (idx : List (String × List String))
    (v : List String) (h : ip' ≠ ip) :
    indexFind? (indexSet idx ip v) ip' = indexFind? idx ip' := by
  induction idx with
  | nil =>
    show indexFind? [(ip, v)] ip' = indexFind? [] ip'
    rw [indexFind_cons_ne (fun he => h he.symm)]
  | cons e rest ih =>
    unfold indexSet
    by_cases he : e.1 = ip
    · rw [if_pos he]
      rw [indexFind_cons_ne (fun hc => h hc.symm)]
      by_cases he' : e.1 = ip'
      · exact absurd (he ▸ he') (fun hc => h hc.symm)
      · rw [indexFind_cons_ne he']
    · rw [if_neg he]
      by_cases he' : e.1 = ip'
      · rw [indexFind_cons_eq he', indexFind_cons_eq he']
      · rw [indexFind_cons_ne he', indexFind_cons_ne he']; exact ih

theorem indexSet_self_of_find {idx : List (String × List String)} {ip : String}
    {v : List String} (h : indexFind? idx ip = some v) : indexSet idx ip v = idx := by
  induction idx with
  | nil => simp [indexFind?] at h
  | cons e rest ih =>
    unfold indexSet
    by_cases he : e.1 = ip
    · rw [if_pos he]
      rw [indexFind_cons_eq he] at h
      obtain rfl : e.2 = v := by injection h
      rw [← he]
    · rw [if_neg he]
      rw [indexFind_cons_ne he] at h
      rw [ih h]

theorem lookupD_addIPD_mem {d : String} {ds : List String} (ip : String)
    (idx : List (String × List String)) (hd : d ∈ ds) (hne : d ≠ "") :
    d ∈ lookupD (DNSEngine.addIPDomainMappings ip ds idx) ip := by
  unfold DNSEngine.addIPDomainMappings
  rw [if_neg (List.ne_nil_of_mem hd)]
  unfold lookupD
  rw [indexFind_indexSet_self]
  exact mem_dedupAppend_of_mem _ _ hd hne

theorem lookupD_addIPD_mono {d ip' : String} (ip : String) (ds : List String)
    (idx : List (String × List String)) (hd : d ∈ lookupD idx ip') :
    d ∈ lookupD (DNSEngine.addIPDomainMappings ip ds idx) ip' := by
  unfold DNSEngine.addIPDomainMappings
  split
  · exact hd
  · by_cases h : ip' = ip
    · subst h
      unfold lookupD
      rw [indexFind_indexSet_self]
      exact mem_of_mem_dedupAppend_acc _ ds hd
    · unfold lookupD
      rw [indexFind_indexSet_ne _ _ h]
      exact hd

theorem indexFind_addIPD_mono {ip' : String} {v : List String} (ip : String)
    (ds : List String) (idx : List (String × List String))
    (h : indexFind? idx ip' = some v) :
    ∃ v2, indexFind? (DNSEngine.addIPDomainMappings ip ds idx) ip' = some v2 ∧ v ⊆ v2 := by
  unfold DNSEngine.addIPDomainMappings
  split
  · exact ⟨v, h, List.Subset.refl v⟩
  · by_cases hip : ip' = ip
    · subst hip
      refine ⟨dedupAppend v ds, ?_, (dedupAppend_extends v ds).subset⟩
      rw [indexFind_indexSet_self, h]
      rfl
    · exact ⟨v, by rw [indexFind_indexSet_ne _ _ hip]; exact h, List.Subset.refl v⟩

theorem foldl_addIPD_mono {d ip' : String} (ds : List String) :
    ∀ (ips : List String) (idx : List (String × List String)),
      d ∈ lookupD idx ip' →
      d ∈ lookupD (ips.foldl
        (fun a ip => if ip ≠ "" then DNSEngine.addIPDomainMappings ip ds a else a) idx) ip' := by
  intro ips
  induction ips with
  | nil => exact fun idx h => h
  | cons ip0 rest ih =>
    intro idx h
    refine ih _ ?_
    by_cases h0 : ip0 = ""
    · simpa [h0] using h
    · simpa [h0] using lookupD_addIPD_mono ip0 ds idx h

theorem foldl_addIPD_find_mono {ip' : String} {v : List String} (ds : List String) :
    ∀ (ips : List String) (idx : List (String × List String)),
      indexFind? idx ip' = some v →
      ∃ v2, indexFind? (ips.foldl
          (fun a ip => if ip ≠ "" then DNSEngine.addIPDomainMappings ip ds a else a) idx) ip'
        = some v2 ∧ v ⊆ v2 := by
  intro ips
  induction ips generalizing v with
  | nil => exact fun idx h => ⟨v, h, List.Subset.refl v⟩
  | cons ip0 rest ih =>
    intro idx h
    by_cases h0 : ip0 = ""
    · simp only [h0]
      obtain ⟨v2, hv2, hsub⟩ := ih _ (by simpa using h)
      exact ⟨v2, hv2, hsub⟩
    · obtain ⟨v1, hv1, hsub1⟩ := indexFind_addIPD_mono ip0 ds idx h
      obtain ⟨v2, hv2, hsub2⟩ := ih _ hv1
      exact ⟨v2, by simpa [h0] using hv2, hsub1.trans hsub2⟩

theorem foldl_addIPD_mem {d ip : String} (ds : List String) :
    ∀ (ips : List String) (idx : List (String × List String)),
      ip ∈ ips → ip ≠ "" → d ∈ ds → d ≠ "" →
      d ∈ lookupD (ips.foldl
        (fun a ip => if ip ≠ "" then DNSEngine.addIPDomainMappings ip ds a else a) idx) ip := by
  intro ips
  induction ips with
  | nil => intro idx h; cases h
  | cons ip0 rest ih =>
    intro idx hmem hip hd hdne
    rcases List.mem_cons.1 hmem with rfl | hmem
    · refine foldl_addIPD_mono ds rest _ ?_
      simpa [hip] using lookupD_addIPD_mem ip idx hd hdne
    · exact ih _ hmem hip hd hdne

theorem foldl_addIPD_entry {ip : String} (ds : List String) :
    ∀ (ips : List String) (idx : List (String × List String)),
      ip ∈ ips → ip ≠ "" → ds ≠ [] →
      ∃ v, indexFind? (ips.foldl
          (fun a ip => if ip ≠ "" then DNSEngine.addIPDomainMappings ip ds a else a) idx) ip
        = some v ∧ ∀ d ∈ ds, d = "" ∨ d ∈ v := by
  intro ips
  induction ips with
  | nil => intro idx h; cases h
  | cons ip0 rest ih =>
    intro idx hmem hip hds
    rcases List.mem_cons.1 hmem with rfl | hmem
    · have h1 : indexFind? (DNSEngine.addIPDomainMappings ip ds idx) ip
          = some (dedupAppend (lookupD idx ip) ds) := by
        unfold DNSEngine.addIPDomainMappings
        rw [if_neg hds]
        exact indexFind_indexSet_self _ _ _
      obtain ⟨v2, hv2, hsub⟩ :=
        foldl_addIPD_find_mono ds rest (DNSEngine.addIPDomainMappings ip ds idx) h1
      refine ⟨v2, ?_, fun d hd => ?_⟩
      · simp only [List.foldl_cons]
        simpa [hip] using hv2
      · by_cases hdne : d = ""
        · exact Or.inl hdne
        · exact Or.inr (hsub (mem_dedupAppend_of_mem _ _ hd hdne))
    · exact ih _ hmem hip hds

theorem foldl_addIPD_id (ds : List String) :
    ∀ (ips : List String) (idx : List (String × List String)),
      (∀ ip ∈ ips, ip ≠ "" →
        ∃ v, indexFind? idx ip = some v ∧ ∀ d ∈ ds, d = "" ∨ d ∈ v) →
      ips.foldl (fun a ip => if ip ≠ "" then DNSEngine.addIPDomainMappings ip ds a else a) idx
        = idx := by
  intro ips
  induction ips with
  | nil => exact fun idx _ => rfl
  | cons ip0 rest ih =>
    intro idx h
    by_cases h0 : ip0 = ""
    · simp only [List.foldl_cons, h0]
      simpa using ih idx fun ip hip => h ip (List.mem_cons_of_mem _ hip)
    · obtain ⟨v, hv, hprop⟩ := h ip0 (List.mem_cons_self _ _) h0
      have hstep : DNSEngine.addIPDomainMappings ip0 ds idx = idx := by
        unfold DNSEngine.addIPDomainMappings
        split
        · rfl
        · have : lookupD idx ip0 = v := by unfold lookupD; rw [hv]; rfl
          rw [show (indexFind? idx ip0).getD [] = v from this]
          rw [dedupAppend_eq_self (by simpa [this] using hprop)]
          exact indexSet_self_of_find hv
      simp only [List.foldl_cons, h0]
      rw [if_pos (by simpa using h0), hstep]
      exact ih idx fun ip hip => h ip (List.mem_cons_of_mem _ hip)

theorem addAll_twice (ips ds : List String) (idx : List (String × List String)) :
    DNSEngine.addIPsDomainsMappings ips ds (DNSEngine.addIPsDomainsMappings ips ds idx)
      = DNSEngine.addIPsDomainsMappings ips ds idx := by
  unfold DNSEngine.addIPsDomainsMappings
  by_cases hg : ips = [] ∨ ds = []
  · simp only [if_pos hg]
  · simp only [if_neg hg]
    push_neg at hg
    exact foldl_addIPD_id ds ips _ fun ip hip hipne =>
      foldl_addIPD_entry ds ips idx hip hipne hg.2

/-! ## handleResponse normal forms -/

theorem parse_not_short {pkt : List Nat} {msg : DNSMessage} (h : parse pkt = some msg) :
    ¬ pkt.length < 12 := by
  intro hl
  unfold parse at h
  rw [if_pos hl] at h
  exact Option.noConfusion h

theorem parse_ne_nil {pkt : List Nat} {msg : DNSMessage} (h : parse pkt = some msg) :
    pkt ≠ [] := by
  intro he
  subst he
  exact parse_not_short h (by simp)

theorem handleQuery_noop {pkt : List Nat} (h : parse pkt = none) (ctx : FlowContext)
    (now : Nat) (st : DNSEngineState) :
    DNSEngine.handleQuery ctx pkt now st = (none, ctx) := by
  unfold DNSEngine.handleQuery
  split
  · rfl
  · rw [h]

theorem handleResponse_noop {pkt : List Nat} (h : parse pkt = none) (ctx : FlowContext)
    (now : Nat) (st : DNSEngineState) :
    DNSEngine.handleResponse ctx pkt now st = (ctx, st) := by
  unfold DNSEngine.handleResponse
  split
  · rfl
  · split
    · rfl
    · rw [h]

theorem handleResponse_notResponse {pkt : List Nat} {msg : DNSMessage}
    (hp : parse pkt = some msg) (hr : msg.isResponse = false) (ctx : FlowContext)
    (now : Nat) (st : DNSEngineState) :
    DNSEngine.handleResponse ctx pkt now st = (ctx, st) := by
  have h1 : ¬ pkt.length < 12 := parse_not_short hp
  have h0 : pkt ≠ [] := parse_ne_nil hp
  unfold DNSEngine.handleResponse
  rw [if_neg h0, if_neg h1, hp]
  simp [hr]

theorem handleResponse_state_eq {pkt : List Nat} {msg : DNSMessage}
    (hp : parse pkt = some msg) (hr : msg.isResponse = true) (ctx : FlowContext)
    (now : Nat) (st : DNSEngineState) :
    DNSEngine.handleResponse ctx pkt now st
      = (ctx.addDomains (DNSEngine.collectNames msg),
         { cache :=
             if DNSEngine.collectIPs msg ≠ [] then storeResponse pkt now st.cache
             else st.cache,
           index :=
             if DNSEngine.collectIPs msg ≠ [] ∧ DNSEngine.collectNames msg ≠ [] then
               DNSEngine.addIPsDomainsMappings (DNSEngine.collectIPs msg)
                 (DNSEngine.collectNames msg) st.index
             else st.index }) := by
  have h1 : ¬ pkt.length < 12 := parse_not_short hp
  have h0 : pkt ≠ [] := parse_ne_nil hp
  unfold DNSEngine.handleResponse
  rw [if_neg h0, if_neg h1, hp]
  simp [hr]

/-! ## C7 -/

/-- C7: ingesting the same DNS response packet through `handleResponse`
twice leaves the reverse index in exactly the state of a single ingest,
whatever the contexts and times of the two calls. -/
theorem C7_reingest_index_idempotent (ctx1 ctx2 : FlowContext) (st : DNSEngineState)
    (pkt : List Nat) (t1 t2 : Nat) :
    (DNSEngine.handleResponse ctx2 pkt t2
        (DNSEngine.handleResponse ctx1 pkt t1 st).2).2.index
      = (DNSEngine.handleResponse ctx1 pkt t1 st).2.index := by
  cases hp : parse pkt with
  | none => simp [handleResponse_noop hp]
  | some msg =>
    cases hr : msg.isResponse with
    | false => simp [handleResponse_notResponse hp hr]
    | true =>
      rw [handleResponse_state_eq hp hr ctx1 t1 st]
      rw [handleResponse_state_eq hp hr ctx2 t2 _]
      dsimp only
      by_cases hc : DNSEngine.collectIPs msg ≠ [] ∧ DNSEngine.collectNames msg ≠ []
      · simp only [if_pos hc]
        exact addAll_twice _ _ _
      · simp only [if_neg hc]

/-! ## String non-emptiness -/

theorem mk_cons_ne_empty (c : Char) (cs : List Char) : String.mk (c :: cs) ≠ "" :=
  fun h => List.noConfusion (congrArg String.data h)

theorem data_append_eq (s t : String) : (s ++ t).data = s.data ++ t.data := by
  cases s; cases t; rfl

theorem str_ne_empty_of_data {s : String} (h : s.data ≠ []) : s ≠ "" := by
  intro he
  subst he
  exact h rfl

theorem append_ne_empty_of_left {s : String} (t : String) (hs : s ≠ "") : s ++ t ≠ "" := by
  refine str_ne_empty_of_data ?_
  rw [data_append_eq]
  intro h
  rcases List.append_eq_nil.1 h with ⟨h1, _⟩
  exact hs (by cases s; cases h1; rfl)

theorem append_ne_empty_of_right (s : String) {t : String} (ht : t ≠ "") : s ++ t ≠ "" := by
  refine str_ne_empty_of_data ?_
  rw [data_append_eq]
  intro h
  rcases List.append_eq_nil.1 h with ⟨_, h2⟩
  exact ht (by cases t; cases h2; rfl)

theorem hex16_ne_empty (n : Nat) : hex16 n ≠ "" := by
  unfold hex16
  split_ifs <;> exact mk_cons_ne_empty _ _

theorem joinColon_ne_empty {x : String} (xs : List String) (hx : x ≠ "") :
    joinColon (x :: xs) ≠ "" := by
  cases xs with
  | nil => exact hx
  | cons y ys =>
    show x ++ ":" ++ joinColon (y :: ys) ≠ ""
    exact append_ne_empty_of_left _ (append_ne_empty_of_left _ hx)

theorem ntopV4_ne_empty (a b c d : Nat) : ntopV4 a b c d ≠ "" := by
  unfold ntopV4
  exact append_ne_empty_of_left _ (append_ne_empty_of_right _ (by decide))

theorem ntopV6_ne_empty (gs : List Nat) (h : gs ≠ []) : ntopV6 gs ≠ "" := by
  unfold ntopV6
  split
  · cases gs with
    | nil => exact absurd rfl h
    | cons g rest =>
      show joinColon (hex16 g :: rest.map hex16) ≠ ""
      exact joinColon_ne_empty _ (hex16_ne_empty g)
  · exact append_ne_empty_of_left _ (append_ne_empty_of_right _ (by decide))

theorem groups2_ne_nil {bs : List Nat} (h : bs.length = 16) : groups2 bs ≠ [] := by
  cases bs with
  | nil => simp at h
  | cons b0 t =>
    cases t with
    | nil => simp at h
    | cons b1 t2 => simp [groups2]

theorem ipv4_shape {r : DNSRecord} {ip : String} (h : r.ipv4 = some ip) :
    ∃ a b c d, ip = ntopV4 a b c d := by
  unfold DNSRecord.ipv4 at h
  by_cases ht : r.rtype = 1
  · rw [if_pos ht] at h
    rcases hd : r.rdata with _ | ⟨a, _ | ⟨b, _ | ⟨c, _ | ⟨d, _ | ⟨e, t⟩⟩⟩⟩⟩ <;>
      rw [hd] at h <;> simp at h
    exact ⟨a, b, c, d, h.symm⟩
  · rw [if_neg ht] at h
    exact Option.noConfusion h

theorem ipv6_shape {r : DNSRecord} {ip : String} (h : r.ipv6 = some ip) :
    r.rdata.length = 16 ∧ ip = ntopV6 (groups2 r.rdata) := by
  unfold DNSRecord.ipv6 at h
  split at h
  · next hcond => exact ⟨hcond.2, (Option.some.inj h).symm⟩
  · exact Option.noConfusion h

theorem collectIPs_ne_empty {msg : DNSMessage} {ip : String}
    (h : ip ∈ DNSEngine.collectIPs msg) : ip ≠ "" := by
  unfold DNSEngine.collectIPs at h
  rw [List.mem_flatMap] at h
  obtain ⟨r, _, hmem⟩ := h
  rw [List.mem_append] at hmem
  rcases hmem with hm | hm
  · have h4 : r.ipv4 = some ip := by
      split at hm
      · rwa [Option.mem_toList, Option.mem_def] at hm
      · cases hm
    obtain ⟨a, b, c, d, rfl⟩ := ipv4_shape h4
    exact ntopV4_ne_empty a b c d
  · have h6 : r.ipv6 = some ip := by
      split at hm
      · rwa [Option.mem_toList, Option.mem_def] at hm
      · cases hm
    obtain ⟨hlen, rfl⟩ := ipv6_shape h6
    exact ntopV6_ne_empty _ (groups2_ne_nil hlen)

/-! ## C2 -/

theorem mem_collectNames_of_union {msg : DNSMessage} {name : String}
    (h : name ∈ DNSMessage.unionNames msg) (hne : name ≠ "") :
    name ∈ DNSEngine.collectNames msg := by
  unfold DNSMessage.unionNames at h
  unfold DNSEngine.collectNames
  simp only [List.mem_append, List.mem_map, List.mem_flatMap, List.mem_filterMap] at h ⊢
  rcases h with (⟨q, hq, rfl⟩ | ⟨r, hr, rfl⟩) | ⟨r, hr, hm⟩
  · exact Or.inl ⟨q, hq, by rw [if_pos hne]⟩
  · refine Or.inr ⟨r, hr, ?_⟩
    exact Or.inl (Or.inl (Or.inl (Or.inl (by rw [if_pos hne]; exact List.mem_singleton.2 rfl))))
  · refine Or.inr ⟨r, hr, ?_⟩
    rcases hm with (hm1 | hm2) | hm3
    · split at hm1
      · next h512 =>
        rcases h512 with h5 | h12
        · exact Or.inl (Or.inl (Or.inl (Or.inr (by rw [if_pos h5]; exact hm1))))
        · exact Or.inl (Or.inl (Or.inr (by rw [if_pos h12]; exact hm1)))
      · cases hm1
    · exact Or.inl (Or.inr hm2)
    · exact Or.inr hm3

/-- C2 (amended): after `handleResponse` on a well-formed DNS response
with the QR bit set, every non-empty name in the union of question names,
answer owner names and CNAME/PTR/MX/SRV targets is indexed under every
A/AAAA answer IP string (the empty root name is collected by neither the
context nor the index, which forces the non-emptiness hypothesis). -/
theorem C2_index_completeness (ctx : FlowContext) (st : DNSEngineState) (pkt : List Nat)
    (now : Nat) (msg : DNSMessage) (ip name : String)
    (hp : parse pkt = some msg) (hr : msg.isResponse = true)
    (hip : ip ∈ DNSEngine.collectIPs msg) (hn : name ∈ DNSMessage.unionNames msg)
    (hne : name ≠ "") :
    name ∈ DNSEngine.getDomainsForIP (DNSEngine.handleResponse ctx pkt now st).2 ip := by
  have hcn : name ∈ DNSEngine.collectNames msg := mem_collectNames_of_union hn hne
  have hipne : ip ≠ "" := collectIPs_ne_empty hip
  rw [handleResponse_state_eq hp hr ctx now st]
  unfold DNSEngine.getDomainsForIP
  dsimp only
  rw [if_pos ⟨List.ne_nil_of_mem hip, List.ne_nil_of_mem hcn⟩]
  unfold DNSEngine.addIPsDomainsMappings
  have hguard : ¬ (DNSEngine.collectIPs msg = [] ∨ DNSEngine.collectNames msg = []) := by
    push_neg
    exact ⟨List.ne_nil_of_mem hip, List.ne_nil_of_mem hcn⟩
  rw [if_neg hguard]
  have hmem := foldl_addIPD_mem (DNSEngine.collectNames msg) (DNSEngine.collectIPs msg)
    st.index hip hipne hcn hne
  unfold lookupD at hmem
  exact hmem

/-- Counterexample for C2 as frozen: in `exRoot` the root (empty)
question name lies in the union of names and `1.2.3.4` is an A answer,
yet the index entry for `1.2.3.4` does not contain the empty name. -/
theorem C2_counterexample :
    parse exRoot = some exRootMsg ∧ exRootMsg.isResponse = true ∧
    "1.2.3.4" ∈ DNSEngine.collectIPs exRootMsg ∧
    "" ∈ DNSMessage.unionNames exRootMsg ∧
    "" ∉ DNSEngine.getDomainsForIP (DNSEngine.handleResponse {} exRoot 0 {}).2 "1.2.3.4" := by
  decide

/-- Witness for C2 on the concrete response `exR1`. -/
theorem C2_witness :
    (parse exR1 = some exR1Msg ∧ exR1Msg.isResponse = true ∧
      "93.184.216.34" ∈ DNSEngine.collectIPs exR1Msg ∧
      "example.com" ∈ DNSMessage.unionNames exR1Msg ∧ "example.com" ≠ "") ∧
    "example.com" ∈ DNSEngine.getDomainsForIP
      (DNSEngine.handleResponse {} exR1 7 {}).2 "93.184.216.34" :=
  ⟨by decide,
    C2_index_completeness {} {} exR1 7 exR1Msg "93.184.216.34" "example.com"
      (by decide) (by decide) (by decide) (by decide) (by decide)⟩

/-! ## C3 -/

theorem tryResolveDomain_false (st : DNSEngineState) (ctx : FlowContext) :
    (FlowEngine.tryResolveDomain st ctx).1 = false →
    FlowEngine.tryResolveDomain st ctx = (false, ctx) := by
  unfold FlowEngine.tryResolveDomain
  split
  · intro _; rfl
  · split
    · dsimp only
      split
      · intro h; exact absurd h (by simp)
      · intro _; rfl
    · intro _; rfl

/-- C3 (amended): `tryResolveDomain` without a packet returns false and
changes nothing when the context already has domains; it consults the
reverse index only for a V4 destination (returning false unchanged for
Unknown/V6 even when the raw IP string is indexed); for a V4 destination
with no domains it queries the index by the raw IP string and, on a
non-empty result, appends all returned domains and returns true, so that
`flowArrive` populates the domains with no packet inspected. -/
theorem C3_resolve_from_cache (st : DNSEngineState) (ctx : FlowContext) :
    (ctx.domains ≠ [] → FlowEngine.tryResolveDomain st ctx = (false, ctx)) ∧
    (ctx.dst_ip.isV4 = false → FlowEngine.tryResolveDomain st ctx = (false, ctx)) ∧
    (ctx.domains = [] → ∀ m0 m1 m2 m3, ctx.dst_ip = .v4 m0 m1 m2 m3 →
      (DNSEngine.getDomainsForIP st ctx.getIPStringRaw = [] →
        FlowEngine.tryResolveDomain st ctx = (false, ctx)) ∧
      (DNSEngine.getDomainsForIP st ctx.getIPStringRaw ≠ [] →
        FlowEngine.tryResolveDomain st ctx
          = (true, ctx.addDomains (DNSEngine.getDomainsForIP st ctx.getIPStringRaw)) ∧
        (FlowEngine.flowArrive st ctx).domains
          = (ctx.addDomains (DNSEngine.getDomainsForIP st ctx.getIPStringRaw)).domains)) := by
  refine ⟨?_, ?_, ?_⟩
  · intro h
    unfold FlowEngine.tryResolveDomain
    rw [if_pos ((hasDomain_iff ctx).2 h)]
  · intro h
    unfold FlowEngine.tryResolveDomain
    split
    · rfl
    · split
      · next heq =>
        rw [heq] at h
        simp [FlowIP.isV4] at h
      · rfl
  · intro hd m0 m1 m2 m3 hv4
    have hnd : ¬ ctx.hasDomain = true := by
      rw [hasDomain_iff]
      simp [hd]
    constructor
    · intro hlook
      unfold FlowEngine.tryResolveDomain
      rw [if_neg hnd]
      split
      · dsimp only
        rw [if_neg (by simp [hlook])]
      · rfl
    · intro hlook
      have hres : FlowEngine.tryResolveDomain st ctx
          = (true, ctx.addDomains (DNSEngine.getDomainsForIP st ctx.getIPStringRaw)) := by
        unfold FlowEngine.tryResolveDomain
        rw [if_neg hnd]
        split
        · dsimp only
          rw [if_pos hlook]
        · next hne => exact absurd hv4 (hne m0 m1 m2 m3)
      refine ⟨hres, ?_⟩
      unfold FlowEngine.flowArrive
      rw [hres, reevaluate_domains]

/-- Counterexample for C3 as frozen: after an AAAA ingest the reverse
index holds the context's raw IPv6 string, yet the packet-less resolve
returns false and adds nothing, because the code guards the lookup on a
V4 destination. -/
theorem C3_counterexample :
    DNSEngine.getDomainsForIP stAAAA ctxV6.getIPStringRaw = ["example.com"] ∧
    ctxV6.domains = [] ∧
    FlowEngine.tryResolveDomain stAAAA ctxV6 = (false, ctxV6) ∧
    (FlowEngine.flowArrive stAAAA ctxV6).domains = [] := by decide

/-- Witness for C3 on a V4 destination present in the index. -/
theorem C3_witness :
    (ctxV4.domains = [] ∧ ctxV4.dst_ip = .v4 93 184 216 34 ∧
      DNSEngine.getDomainsForIP stR1 ctxV4.getIPStringRaw ≠ []) ∧
    (FlowEngine.tryResolveDomain stR1 ctxV4
        = (true, ctxV4.addDomains (DNSEngine.getDomainsForIP stR1 ctxV4.getIPStringRaw)) ∧
      (FlowEngine.flowArrive stR1 ctxV4).domains
        = (ctxV4.addDomains (DNSEngine.getDomainsForIP stR1 ctxV4.getIPStringRaw)).domains) :=
  ⟨⟨by decide, by decide, by decide⟩,
    ((C3_resolve_from_cache stR1 ctxV4).2.2 (by decide) 93 184 216 34 (by decide)).2
      (by decide)⟩

/-! ## C9 -/

theorem reevaluate_eq_flowArriveOld (c : FlowContext) :
    FlowEngine.reevaluateDecision c = FlowEngine.flowArriveOld c := by
  rw [reevaluateDecision_eq]
  unfold FlowEngine.flowArriveOld
  split_ifs <;> rfl

theorem resolvePkt_hasDomain {ctx : FlowContext} (det : Detector) (st : DNSEngineState)
    (pkt : List Nat) (h : ctx.hasDomain = true) :
    FlowEngine.tryResolveDomainPkt det st ctx pkt = (false, ctx) := by
  unfold FlowEngine.tryResolveDomainPkt
  rw [if_pos h]

theorem resolvePkt_detector {ctx : FlowContext} (det : Detector) (st : DNSEngineState)
    (pkt : List Nat) (h : ¬ ctx.hasDomain = true)
    (hres : FlowEngine.tryResolveDomain st ctx = (false, ctx)) :
    FlowEngine.tryResolveDomainPkt det st ctx pkt
      = (match det ctx pkt with
         | some d => (true, ctx.addDomains [d])
         | none => (false, ctx)) := by
  unfold FlowEngine.tryResolveDomainPkt
  rw [if_neg h, hres]

/-- C9 (amended): the current revision (`tryResolveDomain`-based) and the
earlier inline revision of `flowArrive` and `flowRecv` coincide exactly
when the packet-less cache resolution contributes nothing (the context
already has domains, or its destination is not an indexed V4 address);
when the reverse index holds the destination the revisions diverge, the
current one populating `domains` from the index. -/
theorem C9_revision_equivalence (det : Detector) (st : DNSEngineState) (ctx : FlowContext)
    (pkt : List Nat) (now : Nat)
    (h : (FlowEngine.tryResolveDomain st ctx).1 = false) :
    FlowEngine.flowArrive st ctx = FlowEngine.flowArriveOld ctx ∧
    FlowEngine.flowRecv det st ctx pkt now = FlowEngine.flowRecvOld det st ctx pkt now := by
  have hres := tryResolveDomain_false st ctx h
  constructor
  · unfold FlowEngine.flowArrive
    rw [hres]
    exact reevaluate_eq_flowArriveOld ctx
  · unfold FlowEngine.flowRecv FlowEngine.flowRecvOld
    by_cases h0 : pkt = []
    · rw [if_pos h0, if_pos h0]
    · rw [if_neg h0, if_neg h0]
      by_cases hdns : ctx.isDNS
      · rw [if_pos hdns, if_pos hdns]
      · rw [if_neg hdns, if_neg hdns]
        by_cases hhd : ctx.hasDomain
        · rw [resolvePkt_hasDomain det st pkt hhd, if_neg (by simpa using hhd)]
        · rw [resolvePkt_detector det st pkt hhd hres, if_pos (by simpa using hhd)]
          cases hdet : det ctx pkt with
          | some d => simp only [reevaluate_eq_flowArriveOld]
          | none => rfl

/-- Counterexample for C9: with the reverse index holding the
destination IP, the current `flowArrive` learns a domain the earlier
revision never touches. -/
theorem C9_counterexample :
    (FlowEngine.flowArrive stR1 ctxV4).domains = ["example.com"] ∧
    (FlowEngine.flowArriveOld ctxV4).domains = [] ∧
    FlowEngine.flowArrive stR1 ctxV4 ≠ FlowEngine.flowArriveOld ctxV4 := by decide

/-- Witness for C9 on an empty engine state. -/
theorem C9_witness :
    (FlowEngine.tryResolveDomain {} ctxV4).1 = false ∧
    (FlowEngine.flowArrive {} ctxV4 = FlowEngine.flowArriveOld ctxV4 ∧
      FlowEngine.flowRecv det0 {} ctxV4 [1, 2, 3] 0
        = FlowEngine.flowRecvOld det0 {} ctxV4 [1, 2, 3] 0) :=
  ⟨by decide, C9_revision_equivalence det0 {} ctxV4 [1, 2, 3] 0 (by decide)⟩

/-! ## C8 -/

/-- C8: the IPv4-mapped collapse is byte-order broken on the
little-endian build target: `::ffff:93.184.216.34` collapses to the V4
branch but with the four bytes reversed, so it is not equal to parsing
`93.184.216.34` directly and its raw string is `34.216.184.93` instead of
the canonical text; a plain V4 address and a plain V6 address do
round-trip to their canonical forms. -/
theorem C8_mapped_ipv4_byte_order :
    FlowIP.fromString "::ffff:93.184.216.34" = FlowIP.v4 34 216 184 93 ∧
    FlowIP.fromString "93.184.216.34" = FlowIP.v4 93 184 216 34 ∧
    FlowIP.fromString "::ffff:93.184.216.34" ≠ FlowIP.fromString "93.184.216.34" ∧
    (FlowIP.fromString "::ffff:93.184.216.34").isV4 = true ∧
    FlowContext.getIPStringRaw { dst_ip := FlowIP.fromString "::ffff:93.184.216.34" }
      = "34.216.184.93" ∧
    FlowContext.getIPStringRaw { dst_ip := FlowIP.fromString "93.184.216.34" }
      = "93.184.216.34" ∧
    FlowContext.getIPStringRaw { dst_ip := FlowIP.fromString "2001:4860:4860::8888" }
      = "2001:4860:4860::8888" := by decide

/-! ## C1 -/

theorem flowSend_state (det : Detector) (st : DNSEngineState) (ctx : FlowContext)
    (pkt : List Nat) (now : Nat) : (FlowEngine.flowSend det st ctx pkt now).2 = st := by
  unfold FlowEngine.flowSend
  split
  · rfl
  · split
    · rfl
    · split <;> rfl

theorem flowSendResp_state (det : Detector) (st : DNSEngineState) (ctx : FlowContext)
    (pkt : List Nat) (now : Nat) :
    (FlowEngine.flowSendResp det st ctx pkt now).2.2 = st := by
  unfold FlowEngine.flowSendResp
  split
  · rfl
  · split
    · rfl
    · split <;> rfl

theorem storeResponse_origin {P : List Nat → Prop} {c : DNSCache} (h : CacheOrigin P c)
    {pkt : List Nat} (hp : P pkt) (now : Nat) : CacheOrigin P (storeResponse pkt now c) := by
  unfold storeResponse
  cases hparse : parse pkt with
  | none => exact h
  | some msg =>
    dsimp only
    split
    · exact h
    · split
      · exact h
      · split
        · exact h
        · split
          · exact h
          · cases hk : msg.questionKey with
            | none => exact h
            | some k =>
              intro e he
              have he2 : e ∈ (⟨k, pkt, now + minTTL msg.answers⟩ : CacheEntry) ::
                  c.filter (fun e2 => e2.key ≠ k) := List.take_subset _ _ he
              rcases List.mem_cons.1 he2 with rfl | hmem
              · refine ⟨hp, ?_⟩
                show packetQuestionKey pkt = some k
                unfold packetQuestionKey
                rw [hparse, Option.some_bind, hk]
              · exact h e (List.mem_of_mem_filter hmem)

theorem buildResponse_hit {q : List Nat} {now : Nat} {c : DNSCache} {r : List Nat}
    (h : buildResponseFromCache q now c = some r) :
    ∃ msg k e, parse q = some msg ∧ DNSMessage.questionKey msg = some k ∧ e ∈ c ∧
      e.key = k ∧ now < e.expiresAt ∧
      r = rewriteTxid e.bytes (q.headD 0) ((q.drop 1).headD 0) := by
  unfold buildResponseFromCache at h
  rcases Option.bind_eq_some.1 h with ⟨msg, hp, h⟩
  rcases Option.bind_eq_some.1 h with ⟨k, hk, h⟩
  rcases Option.bind_eq_some.1 h with ⟨e, hf, h⟩
  have hin := List.mem_of_find?_eq_some hf
  have h1 := List.find?_some hf
  have hpred : e.key = k ∧ now < e.expiresAt := of_decide_eq_true (by simpa using h1)
  exact ⟨msg, k, e, hp, hk, hin, hpred.1, hpred.2, (Option.some.inj h).symm⟩

theorem handleResponse_cacheOrigin {P : List Nat → Prop} {st : DNSEngineState}
    (h : CacheOrigin P st.cache) {pkt : List Nat} (hp : P pkt) (ctx : FlowContext)
    (now : Nat) : CacheOrigin P (DNSEngine.handleResponse ctx pkt now st).2.cache := by
  cases hparse : parse pkt with
  | none => rw [handleResponse_noop hparse]; exact h
  | some msg =>
    cases hr : msg.isResponse with
    | false => rw [handleResponse_notResponse hparse hr]; exact h
    | true =>
      rw [handleResponse_state_eq hparse hr]
      dsimp only
      split
      · exact storeResponse_origin h hp now
      · exact h

theorem applyOp_cacheOrigin {P : List Nat → Prop} (det : Detector)
    (p : FlowContext × DNSEngineState) (op : FlowOp) (h : CacheOrigin P p.2.cache)
    (hop : ∀ pkt t, op = FlowOp.recv pkt t ∨ op = FlowOp.dnsResponse pkt t → P pkt) :
    CacheOrigin P (applyOp det p op).2.cache := by
  cases op with
  | arrive => exact h
  | openFlow => exact h
  | close => exact h
  | dnsQuery pkt t => exact h
  | send pkt t =>
    show CacheOrigin P (FlowEngine.flowSend det p.2 p.1 pkt t).2.cache
    rw [flowSend_state]
    exact h
  | sendResp pkt t =>
    show CacheOrigin P (FlowEngine.flowSendResp det p.2 p.1 pkt t).2.2.cache
    rw [flowSendResp_state]
    exact h
  | recv pkt t =>
    show CacheOrigin P (FlowEngine.flowRecv det p.2 p.1 pkt t).2.cache
    unfold FlowEngine.flowRecv
    split
    · exact h
    · split
      · exact handleResponse_cacheOrigin h (hop pkt t (Or.inl rfl)) p.1 t
      · split
        · exact h
        · exact h
  | dnsResponse pkt t =>
    exact handleResponse_cacheOrigin h (hop pkt t (Or.inr rfl)) p.1 t

theorem runOps_cacheOrigin {P : List Nat → Prop} (det : Detector) :
    ∀ (ops : List FlowOp) (p : FlowContext × DNSEngineState),
      CacheOrigin P p.2.cache →
      (∀ pkt t, FlowOp.recv pkt t ∈ ops ∨ FlowOp.dnsResponse pkt t ∈ ops → P pkt) →
      CacheOrigin P (runOps det p ops).2.cache := by
  intro ops
  induction ops with
  | nil => exact fun p h _ => h
  | cons op rest ih =>
    intro p h hops
    refine ih (applyOp det p op) ?_ ?_
    · refine applyOp_cacheOrigin det p op h ?_
      intro pkt t hor
      rcases hor with rfl | rfl
      · exact hops pkt t (Or.inl (List.mem_cons_self _ _))
      · exact hops pkt t (Or.inr (List.mem_cons_self _ _))
    · intro pkt t hor
      rcases hor with hm | hm
      · exact hops pkt t (Or.inl (List.mem_cons_of_mem _ hm))
      · exact hops pkt t (Or.inr (List.mem_cons_of_mem _ hm))

/-- C1: if, after any sequence of engine operations starting from a fresh
engine state, `handleQuery` answers query `q` from the cache with bytes
`r`, then some previously ingested response `r'` exists (a `flowRecv` or
`handleResponse` packet of the trace) whose normalized first-question key
(lowercased name, qtype, qclass) equals `q`'s, whose cache entry has not
yet expired (`now < expires_at`), and `r` is `r'` byte-for-byte except
that its first two bytes are `q`'s first two bytes. -/
theorem C1_cache_soundness (det : Detector) (ops : List FlowOp) (ctx0 ctx : FlowContext)
    (q : List Nat) (now : Nat) (r : List Nat)
    (h : (DNSEngine.handleQuery ctx q now (runOps det (ctx0, {}) ops).2).1 = some r) :
    ∃ r', (∃ t, FlowOp.recv r' t ∈ ops ∨ FlowOp.dnsResponse r' t ∈ ops) ∧
      (∃ k, packetQuestionKey q = some k ∧ packetQuestionKey r' = some k) ∧
      (∃ e ∈ (runOps det (ctx0, {}) ops).2.cache, e.bytes = r' ∧ now < e.expiresAt) ∧
      r = rewriteTxid r' (q.headD 0) ((q.drop 1).headD 0) := by
  have hq : buildResponseFromCache q now (runOps det (ctx0, {}) ops).2.cache = some r := by
    unfold DNSEngine.handleQuery at h
    split at h
    · exact Option.noConfusion h
    · split at h
      · exact Option.noConfusion h
      · exact h
  obtain ⟨msg, k, e, hpq, hkey, hmem, hek, hexp, hrw⟩ := buildResponse_hit hq
  have horig : CacheOrigin
      (fun b => ∃ t, FlowOp.recv b t ∈ ops ∨ FlowOp.dnsResponse b t ∈ ops)
      (runOps det (ctx0, {}) ops).2.cache := by
    refine runOps_cacheOrigin det ops (ctx0, {}) ?_ ?_
    · intro e2 he2
      cases he2
    · intro pkt t hmem2
      exact ⟨t, hmem2⟩
  obtain ⟨hP, hkey'⟩ := horig e hmem
  refine ⟨e.bytes, hP, ⟨k, ?_, ?_⟩, ⟨e, hmem, rfl, hexp⟩, hrw⟩
  · unfold packetQuestionKey
    rw [hpq, Option.some_bind, hkey]
  · rw [hkey', hek]

/-- Witness for C1: the spec's scenario 1 - ingest `exR1`, query with
`exQ` (id `0xABCD`), get `exR1` back with the id rewritten. -/
theorem C1_witness :
    (DNSEngine.handleQuery { dst_port := 53 } exQ 200
        (runOps det0 ({}, {}) [FlowOp.dnsResponse exR1 100]).2).1
      = some (rewriteTxid exR1 171 205) ∧
    (∃ r', (∃ t, FlowOp.recv r' t ∈ [FlowOp.dnsResponse exR1 100]
          ∨ FlowOp.dnsResponse r' t ∈ [FlowOp.dnsResponse exR1 100]) ∧
      (∃ k, packetQuestionKey exQ = some k ∧ packetQuestionKey r' = some k) ∧
      (∃ e ∈ (runOps det0 ({}, {}) [FlowOp.dnsResponse exR1 100]).2.cache,
        e.bytes = r' ∧ 200 < e.expiresAt) ∧
      rewriteTxid exR1 171 205 = rewriteTxid r' (exQ.headD 0) ((exQ.drop 1).headD 0)) :=
  ⟨by decide,
    C1_cache_soundness det0 [FlowOp.dnsResponse exR1 100] {} { dst_port := 53 } exQ 200
      (rewriteTxid exR1 171 205) (by decide)⟩

end Flowcheck
